import Mathlib

/-!
Verification of the chapter validator of `crew.py`.

The repository's only non-declarative logic is `validate_chapters` in
`crew.py`: a pure text-format checker that splits a manuscript blob on the
literal token "Chapter", discards whitespace-only fragments, and checks the
fragment count and the per-fragment whitespace-delimited word count against
four caller-overridable bounds (defaults 8, 10, 300, 400).  On a violation it
returns a diagnostic string; otherwise it returns the input unchanged.

We embed the function over `List Char`.  Python's `str.split(sep)` with a
non-empty separator (non-overlapping left-to-right cuts, keeping empty
pieces) is modelled by `pySplit`; `str.strip()` by `pyStrip` and `str.split()`
(whitespace-run splitting, discarding empties) by `pyWords`, both over the
full whitespace set that CPython's `str` methods recognise (`pyIsSpace`).
Bounds are `Int`, mirroring Python's integers; counts are `Nat`.
-/

set_option maxRecDepth 4000

/-- The whitespace characters recognised by CPython's `str.strip()` and
no-argument `str.split()` (`Py_UNICODE_ISSPACE`): the ASCII whitespace and
information-separator controls U+0009-U+000D, U+001C-U+001F and U+0020, the
next-line and no-break-space characters U+0085 and U+00A0, and the Unicode
space-category characters U+1680, U+2000-U+200A, U+2028, U+2029, U+202F,
U+205F and U+3000. -/
def pyIsSpace (c : Char) : Bool :=
  let n := c.toNat
  n == 0x20 || n == 0x09 || n == 0x0a || n == 0x0b || n == 0x0c || n == 0x0d ||
    (decide (0x1c ≤ n) && decide (n ≤ 0x1f)) || n == 0x85 || n == 0xa0 ||
    n == 0x1680 || (decide (0x2000 ≤ n) && decide (n ≤ 0x200a)) ||
    n == 0x2028 || n == 0x2029 || n == 0x202f || n == 0x205f || n == 0x3000

/-- `isPre p s` is true when the list `p` occurs at the very front of `s`
(the check Python's `str.split(sep)` performs at each scan position). -/
def isPre : List Char → List Char → Bool
  | [], _ => true
  | _ :: _, [] => false
  | c :: cs, d :: ds => c == d && isPre cs ds

/-- `hasOccur sep s` is true when `sep` occurs as a contiguous subsequence of
`s` (Python's `sep in s`). -/
def hasOccur (sep : List Char) : List Char → Bool
  | [] => sep.isEmpty
  | c :: rest => isPre sep (c :: rest) || hasOccur sep rest

/-- Fuel-driven scanner realising Python's `str.split(sep)` for a non-empty
separator: scan left to right; at a separator occurrence cut and emit the
accumulated piece (kept even when empty); `acc` holds the current piece in
reverse.  The fuel is only a termination device: any fuel at least the length
of the remaining text yields the same result (`pySplitGo_fuel`). -/
def pySplitGo (sep : List Char) : Nat → List Char → List Char → List (List Char)
  | _, [], acc => [acc.reverse]
  | 0, s, acc => [acc.reverse ++ s]
  | fuel + 1, c :: rest, acc =>
    if isPre sep (c :: rest) then
      acc.reverse :: pySplitGo sep fuel (List.drop sep.length (c :: rest)) []
    else
      pySplitGo sep fuel rest (c :: acc)

/-- Python's `s.split(sep)` for a non-empty separator `sep`. -/
def pySplit (sep s : List Char) : List (List Char) :=
  pySplitGo sep s.length s []

/-- Python's `s.strip()`: remove leading and trailing whitespace. -/
def pyStrip (s : List Char) : List Char :=
  ((s.dropWhile pyIsSpace).reverse.dropWhile pyIsSpace).reverse

/-- Accumulator-driven scanner realising Python's no-argument `s.split()`:
split on runs of whitespace and discard empty pieces. -/
def pyWordsAux : List Char → List Char → List (List Char)
  | [], acc => if acc.isEmpty then [] else [acc.reverse]
  | c :: rest, acc =>
    if pyIsSpace c then
      if acc.isEmpty then pyWordsAux rest [] else acc.reverse :: pyWordsAux rest []
    else
      pyWordsAux rest (c :: acc)

/-- Python's `s.split()` (split on whitespace runs, no empty pieces). -/
def pyWords (s : List Char) : List (List Char) :=
  pyWordsAux s []

/-- `len(chapter.split())` of `crew.py` line 19: the whitespace-delimited word
count of a fragment. -/
def wcOf (s : List Char) : Nat :=
  (pyWords s).length

/-- The literal split token of `crew.py` line 14. -/
def chapterSep : List Char := "Chapter".data

/-- The chapter-count rejection message of `crew.py` line 16. -/
def countMsg (n : Nat) (min_chapters max_chapters : Int) : List Char :=
  "❌ Found ".data ++ (toString n).data ++
    " chapters. Please rewrite with ".data ++ (toString min_chapters).data ++
    "-".data ++ (toString max_chapters).data ++ " chapters.".data

/-- The word-count rejection message of `crew.py` line 21. -/
def wordMsg (i wc : Nat) (min_words max_words : Int) : List Char :=
  "❌ Chapter ".data ++ (toString i).data ++ " has ".data ++ (toString wc).data ++
    " words. Please rewrite with ".data ++ (toString min_words).data ++
    "-".data ++ (toString max_words).data ++ " words.".data

/-- Line 14 of `crew.py`:
`chapters = [c for c in output.split("Chapter") if c.strip()]`. -/
def chaptersOf (output : List Char) : List (List Char) :=
  (pySplit chapterSep output).filter (fun c => !(pyStrip c).isEmpty)

/-- Lines 18-22 of `crew.py`: the `for i, chapter in enumerate(chapters, 1)`
loop, returning the first word-count diagnostic, or `output` when every
fragment passes. -/
def chapterLoop (min_words max_words : Int) (output : List Char) :
    Nat → List (List Char) → List Char
  | _, [] => output
  | i, chapter :: rest =>
    if (wcOf chapter : Int) < min_words ∨ (wcOf chapter : Int) > max_words then
      wordMsg i (wcOf chapter) min_words max_words
    else
      chapterLoop min_words max_words output (i + 1) rest

/-- Lines 13-22 of `crew.py`: `validate_chapters(output, min_chapters=8,
max_chapters=10, min_words=300, max_words=400)`. -/
def validate_chapters (output : List Char) (min_chapters : Int := 8)
    (max_chapters : Int := 10) (min_words : Int := 300) (max_words : Int := 400) :
    List Char :=
  if (((chaptersOf output).length : Int) < min_chapters ∨
      ((chaptersOf output).length : Int) > max_chapters) then
    countMsg (chaptersOf output).length min_chapters max_chapters
  else
    chapterLoop min_words max_words output 1 (chaptersOf output)

/-- A 600-character block of 300 whitespace-delimited words, used as chapter
body in the default-bounds acceptance test. -/
def wordBlock : List Char := List.flatten (List.replicate 300 (' ' :: ['w']))

/-- Eight chapters of 300 words each: a boundary input for the default
bounds. -/
def c5Text : List Char := List.flatten (List.replicate 8 (chapterSep ++ wordBlock))

/-- A small accepted input: one chapter of two words. -/
def c1Text : List Char := "Chapter hi there".data

/-- A text with no occurrence of the split token. -/
def noChapterText : List Char := "hello".data

/-- A non-whitespace text with no occurrence of the split token. -/
def c10Text : List Char := "plain words only".data

/-- A whitespace-only text. -/
def wsOnlyText : List Char := " \n ".data

/-- Three fragments (1, 4, 1 words): the middle one is the first violator of
word bounds 1-2. -/
def c4TextA : List Char := "Chapter a Chapter w w w w Chapter b".data

/-- One fragment of three words: violates both a 2-3 chapter-count bound and
a 1-2 word bound. -/
def c4TextB : List Char := "Chapter w w w".data

/-- One chapter whose body starts with two spaces. -/
def c6Text : List Char := "Chapter  x".data

/-- The single fragment `chaptersOf` extracts from `c6Text`. -/
def c6Frag : List Char := "  x".data

/-!
Structural lemmas about the split scanner
-/

/-- The scanner on an exhausted text emits the pending piece, at any fuel. -/
theorem pySplitGo_nil (sep : List Char) (f : Nat) (acc : List Char) :
    pySplitGo sep f [] acc = [acc.reverse] := by
  cases f <;> rfl

/-- One scanning step on a non-empty text with positive fuel. -/
theorem pySplitGo_cons (sep : List Char) (f : Nat) (c : Char) (rest acc : List Char) :
    pySplitGo sep (f + 1) (c :: rest) acc =
      if isPre sep (c :: rest) then
        acc.reverse :: pySplitGo sep f (List.drop sep.length (c :: rest)) []
      else
        pySplitGo sep f rest (c :: acc) := rfl

/-- A list is a prefix of itself followed by anything. -/
theorem isPre_append_self (p t : List Char) : isPre p (p ++ t) = true := by
  induction p with
  | nil => rfl
  | cons c cs ih => simp [isPre, ih]

/-- A prefix of a list is a prefix of any extension of it. -/
theorem isPre_append_right (p : List Char) :
    ∀ s t, isPre p s = true → isPre p (s ++ t) = true := by
  induction p with
  | nil => intro s t _; rfl
  | cons c cs ih =>
    intro s t h
    cases s with
    | nil => simp [isPre] at h
    | cons d ds =>
      simp only [isPre, Bool.and_eq_true] at h
      simp [isPre, h.1, ih ds t h.2]

/-- For a non-empty separator, any fuel at least the length of the text gives
the same scan result. -/
theorem pySplitGo_fuel (sep : List Char) (hsep : sep ≠ []) :
    ∀ f₁ f₂ (s acc : List Char), s.length ≤ f₁ → s.length ≤ f₂ →
      pySplitGo sep f₁ s acc = pySplitGo sep f₂ s acc := by
  intro f₁
  induction f₁ with
  | zero =>
    intro f₂ s acc h1 _
    have hs : s = [] := List.length_eq_zero.mp (Nat.le_zero.mp h1)
    subst hs
    rw [pySplitGo_nil, pySplitGo_nil]
  | succ f ih =>
    intro f₂ s acc h1 h2
    cases s with
    | nil => rw [pySplitGo_nil, pySplitGo_nil]
    | cons c rest =>
      have hlen : rest.length + 1 ≤ f₂ := by simpa using h2
      obtain ⟨g, rfl⟩ : ∃ g, f₂ = g + 1 := by
        cases f₂ with
        | zero => omega
        | succ g => exact ⟨g, rfl⟩
      rw [pySplitGo_cons, pySplitGo_cons]
      have hseplen : 1 ≤ sep.length := by
        cases sep with
        | nil => exact absurd rfl hsep
        | cons x xs => simp
      by_cases hp : isPre sep (c :: rest) = true
      · rw [if_pos hp, if_pos hp]
        have hdrop : (List.drop sep.length (c :: rest)).length ≤ f := by
          rw [List.length_drop]
          simp only [List.length_cons] at h1 ⊢
          omega
        have hdrop2 : (List.drop sep.length (c :: rest)).length ≤ g := by
          rw [List.length_drop]
          simp only [List.length_cons] at hlen ⊢
          omega
        rw [ih g _ [] hdrop hdrop2]
      · rw [if_neg hp, if_neg hp]
        have hr1 : rest.length ≤ f := by
          simp only [List.length_cons] at h1
          omega
        have hr2 : rest.length ≤ g := by omega
        rw [ih g rest (c :: acc) hr1 hr2]

/-- Splitting a text that starts with the (non-empty) separator cuts an empty
first piece, then splits the remainder. -/
theorem pySplit_cons_match (sep s : List Char) (hsep : sep ≠ [])
    (hp : isPre sep s = true) :
    pySplit sep s = [] :: pySplit sep (List.drop sep.length s) := by
  cases s with
  | nil =>
    cases sep with
    | nil => exact absurd rfl hsep
    | cons x xs => simp [isPre] at hp
  | cons c rest =>
    have hseplen : 1 ≤ sep.length := by
      cases sep with
      | nil => exact absurd rfl hsep
      | cons x xs => simp
    unfold pySplit
    rw [show (c :: rest).length = rest.length + 1 from rfl, pySplitGo_cons, if_pos hp]
    congr 1
    apply pySplitGo_fuel sep hsep
    · rw [List.length_drop]
      simp only [List.length_cons]
      omega
    · exact le_rfl

/-- Scanning a text in which the separator never occurs emits the pending
piece followed by the whole text. -/
theorem pySplitGo_no_occur (sep : List Char) :
    ∀ (s : List Char) (f : Nat) (acc : List Char), s.length ≤ f →
      hasOccur sep s = false → pySplitGo sep f s acc = [acc.reverse ++ s] := by
  intro s
  induction s with
  | nil => intro f acc _ _; rw [pySplitGo_nil]; simp
  | cons c rest ih =>
    intro f acc hf hno
    obtain ⟨g, rfl⟩ : ∃ g, f = g + 1 := by
      cases f with
      | zero => simp at hf
      | succ g => exact ⟨g, rfl⟩
    simp only [hasOccur, Bool.or_eq_false_iff] at hno
    rw [pySplitGo_cons, if_neg (by simp [hno.1])]
    have hr : rest.length ≤ g := by
      simp only [List.length_cons] at hf
      omega
    rw [ih g (c :: acc) hr hno.2]
    simp

/-- Splitting a text in which the separator never occurs gives back the text
as the only piece. -/
theorem pySplit_no_occur (sep s : List Char) (hno : hasOccur sep s = false) :
    pySplit sep s = [s] := by
  unfold pySplit
  rw [pySplitGo_no_occur sep s s.length [] le_rfl hno]
  rfl

/-!
Lemmas about stripping, fragment filtering and word counting
-/

/-- A stripped text is empty exactly when the text is all whitespace. -/
theorem pyStrip_eq_nil_iff (s : List Char) :
    pyStrip s = [] ↔ ∀ c ∈ s, pyIsSpace c = true := by
  unfold pyStrip
  rw [List.reverse_eq_nil_iff, List.dropWhile_eq_nil_iff]
  constructor
  · intro h c hc
    have hsplit := List.takeWhile_append_dropWhile (p := pyIsSpace) (l := s)
    rw [← hsplit] at hc
    rcases List.mem_append.mp hc with h1 | h2
    · exact List.mem_takeWhile_imp h1
    · exact h _ (List.mem_reverse.mpr h2)
  · intro h c hc
    exact h c ((List.dropWhile_sublist pyIsSpace).subset (List.mem_reverse.mp hc))

/-- A non-empty list is not `isEmpty`. -/
theorem bnot_isEmpty_of_ne_nil (l : List Char) (h : l ≠ []) : (!l.isEmpty) = true := by
  cases l with
  | nil => exact absurd rfl h
  | cons a t => rfl

/-- Every fragment kept by line 14's filter has a non-whitespace character. -/
theorem mem_chaptersOf_not_ws (text frag : List Char) (h : frag ∈ chaptersOf text) :
    frag.any (fun c => !pyIsSpace c) = true := by
  unfold chaptersOf at h
  have h2 := (List.mem_filter.mp h).2
  have h3 : pyStrip frag ≠ [] := by
    intro he
    rw [he] at h2
    simp at h2
  rw [List.any_eq_true]
  by_contra hall
  push_neg at hall
  apply h3
  rw [pyStrip_eq_nil_iff]
  intro c hc
  have := hall c hc
  simpa using this

/-- The split token spelled out. -/
theorem chapterSep_cons : chapterSep = 'C' :: "hapter".data := by decide

/-- The split token does not start at a character other than `C`. -/
theorem isPre_chapterSep_of_ne (c : Char) (l : List Char) (hc : c ≠ 'C') :
    isPre chapterSep (c :: l) = false := by
  rw [chapterSep_cons]
  have hbeq : ('C' == c) = false := beq_eq_false_iff_ne.mpr (Ne.symm hc)
  simp [isPre, hbeq]

/-- A text in which the split token occurs contains the character `C`. -/
theorem hasOccur_chapterSep_mem (s : List Char) (h : hasOccur chapterSep s = true) :
    'C' ∈ s := by
  induction s with
  | nil =>
    have : chapterSep.isEmpty = false := by decide
    simp [hasOccur, this] at h
  | cons c rest ih =>
    simp only [hasOccur, Bool.or_eq_true] at h
    rcases h with h1 | h2
    · by_cases hc : c = 'C'
      · rw [hc]; exact List.mem_cons_self _ _
      · rw [isPre_chapterSep_of_ne c rest hc] at h1
        exact absurd h1 (by simp)
    · exact List.mem_cons_of_mem _ (ih h2)

/-- A whitespace-only text yields no chapter fragments. -/
theorem chaptersOf_ws_only (text : List Char) (h : ∀ c ∈ text, pyIsSpace c = true) :
    chaptersOf text = [] := by
  have hno : hasOccur chapterSep text = false := by
    by_contra hh
    rw [Bool.not_eq_false] at hh
    have hmem := hasOccur_chapterSep_mem text hh
    have := h _ hmem
    exact absurd this (by decide)
  have hstrip : pyStrip text = [] := (pyStrip_eq_nil_iff text).mpr h
  have hcond : (!(pyStrip text).isEmpty) = false := by rw [hstrip]; rfl
  unfold chaptersOf
  rw [pySplit_no_occur _ _ hno]
  simp [List.filter_cons, hcond]

/-- A text without the split token and with some non-whitespace character is a
single chapter fragment. -/
theorem chaptersOf_no_occur (text : List Char)
    (hno : hasOccur chapterSep text = false)
    (hnw : text.any (fun c => !pyIsSpace c) = true) :
    chaptersOf text = [text] := by
  have hstrip : pyStrip text ≠ [] := by
    rw [Ne, pyStrip_eq_nil_iff]
    rw [List.any_eq_true] at hnw
    obtain ⟨c, hc, hcs⟩ := hnw
    intro hall
    have := hall c hc
    rw [this] at hcs
    simp at hcs
  have hcond : (!(pyStrip text).isEmpty) = true := by
    cases he : pyStrip text with
    | nil => exact absurd he hstrip
    | cons a l => rfl
  unfold chaptersOf
  rw [pySplit_no_occur _ _ hno]
  simp [List.filter_cons, hcond]

/-!
Lemmas about the word-count loop
-/

/-- The loop on an exhausted fragment list passes the text through. -/
theorem chapterLoop_nil (mw Mw : Int) (output : List Char) (i : Nat) :
    chapterLoop mw Mw output i [] = output := rfl

/-- One step of the word-count loop. -/
theorem chapterLoop_cons (mw Mw : Int) (output chapter : List Char)
    (rest : List (List Char)) (i : Nat) :
    chapterLoop mw Mw output i (chapter :: rest) =
      if ((wcOf chapter : Int) < mw ∨ (wcOf chapter : Int) > Mw) then
        wordMsg i (wcOf chapter) mw Mw
      else
        chapterLoop mw Mw output (i + 1) rest := rfl

/-- When every fragment's word count is within bounds, the loop returns the
text unchanged. -/
theorem chapterLoop_all_pass (mw Mw : Int) (output : List Char) :
    ∀ (l : List (List Char)) (i : Nat),
      (∀ ch ∈ l, ¬((wcOf ch : Int) < mw ∨ (wcOf ch : Int) > Mw)) →
      chapterLoop mw Mw output i l = output := by
  intro l
  induction l with
  | nil => intro i _; rfl
  | cons ch rest ih =>
    intro i h
    rw [chapterLoop_cons, if_neg (h ch (List.mem_cons_self _ _))]
    exact ih (i + 1) (fun x hx => h x (List.mem_cons_of_mem _ hx))

/-- The loop returns either the text or some word-count diagnostic. -/
theorem chapterLoop_shape (mw Mw : Int) (output : List Char) :
    ∀ (l : List (List Char)) (i : Nat),
      chapterLoop mw Mw output i l = output ∨
        ∃ j wc, chapterLoop mw Mw output i l = wordMsg j wc mw Mw := by
  intro l
  induction l with
  | nil => intro i; left; rfl
  | cons ch rest ih =>
    intro i
    rw [chapterLoop_cons]
    by_cases h : ((wcOf ch : Int) < mw ∨ (wcOf ch : Int) > Mw)
    · right
      exact ⟨i, wcOf ch, by rw [if_pos h]⟩
    · rw [if_neg h]
      exact ih (i + 1)

/-- The loop reports the first fragment whose word count is out of bounds. -/
theorem chapterLoop_first (mw Mw : Int) (output : List Char) :
    ∀ (l : List (List Char)) (k i : Nat) (hk : k < l.length),
      (∀ (j : Nat) (hj : j < l.length), j < k →
        ¬((wcOf (l.get ⟨j, hj⟩) : Int) < mw ∨ (wcOf (l.get ⟨j, hj⟩) : Int) > Mw)) →
      ((wcOf (l.get ⟨k, hk⟩) : Int) < mw ∨ (wcOf (l.get ⟨k, hk⟩) : Int) > Mw) →
      chapterLoop mw Mw output i l = wordMsg (i + k) (wcOf (l.get ⟨k, hk⟩)) mw Mw := by
  intro l
  induction l with
  | nil => intro k i hk; exact absurd hk (by simp)
  | cons ch rest ih =>
    intro k i hk hprev hviol
    cases k with
    | zero =>
      rw [chapterLoop_cons]
      simp only [List.get] at hviol ⊢
      rw [if_pos hviol]
      simp
    | succ k0 =>
      have hch : ¬((wcOf ch : Int) < mw ∨ (wcOf ch : Int) > Mw) := by
        have := hprev 0 (by simp) (Nat.succ_pos _)
        simpa using this
      rw [chapterLoop_cons, if_neg hch]
      have hk0 : k0 < rest.length := by simpa using hk
      have hrec := ih k0 (i + 1) hk0 (fun j hj hjk => by
        have := hprev (j + 1) (by simpa using Nat.succ_lt_succ hj) (Nat.succ_lt_succ hjk)
        simpa using this) (by simpa using hviol)
      rw [hrec]
      have : i + 1 + k0 = i + (k0 + 1) := by omega
      rw [this]
      congr 1

/-!
Lemmas about the diagnostic messages
-/

/-- The count rejection is the spec template preceded by the cross prefix. -/
theorem countMsg_prefix_form (n : Nat) (mc Mc : Int) :
    countMsg n mc Mc = "❌ ".data ++
      ("Found ".data ++ (toString n).data ++
        " chapters. Please rewrite with ".data ++ (toString mc).data ++
        "-".data ++ (toString Mc).data ++ " chapters.".data) := by
  unfold countMsg
  have h : ("❌ Found ".data : List Char) = "❌ ".data ++ "Found ".data := by decide
  rw [h]
  simp [List.append_assoc]

/-- The count rejection starts with the cross prefix. -/
theorem isPre_countMsg (n : Nat) (mc Mc : Int) :
    isPre ("❌ ".data) (countMsg n mc Mc) = true := by
  unfold countMsg
  apply isPre_append_right
  apply isPre_append_right
  apply isPre_append_right
  apply isPre_append_right
  apply isPre_append_right
  apply isPre_append_right
  decide

/-- The word rejection starts with the cross prefix. -/
theorem isPre_wordMsg (i wc : Nat) (mw Mw : Int) :
    isPre ("❌ ".data) (wordMsg i wc mw Mw) = true := by
  unfold wordMsg
  apply isPre_append_right
  apply isPre_append_right
  apply isPre_append_right
  apply isPre_append_right
  apply isPre_append_right
  apply isPre_append_right
  apply isPre_append_right
  apply isPre_append_right
  decide

/-!
The boundary acceptance input: eight chapters of three hundred words
-/

/-- Scanning past characters that cannot start the split token only moves
them into the pending piece. -/
theorem pySplitGo_skip (u : List Char) :
    ∀ (f : Nat) (v acc : List Char), u.length + v.length ≤ f →
      (∀ c ∈ u, c ≠ 'C') →
      pySplitGo chapterSep f (u ++ v) acc =
        pySplitGo chapterSep v.length v (u.reverse ++ acc) := by
  induction u with
  | nil =>
    intro f v acc hf _
    simp only [List.nil_append, List.reverse_nil]
    exact pySplitGo_fuel chapterSep (by decide) f v.length v acc (by simpa using hf) le_rfl
  | cons c u0 ih =>
    intro f v acc hf hne
    obtain ⟨g, rfl⟩ : ∃ g, f = g + 1 := by
      cases f with
      | zero => exfalso; simp only [List.length_cons] at hf; omega
      | succ g => exact ⟨g, rfl⟩
    have hc : c ≠ 'C' := hne c (List.mem_cons_self _ _)
    rw [List.cons_append, pySplitGo_cons,
      if_neg (by simp [isPre_chapterSep_of_ne c _ hc])]
    rw [ih g v (c :: acc) (by simp only [List.length_cons] at hf; omega)
      (fun x hx => hne x (List.mem_cons_of_mem _ hx))]
    have hacc : u0.reverse ++ (c :: acc) = (c :: u0).reverse ++ acc := by
      simp
    rw [hacc]

/-- Scanning a text that starts with the separator cuts there at once. -/
theorem pySplitGo_match_head (sep : List Char) (hsep : sep ≠ []) :
    ∀ (f : Nat) (rest acc : List Char), (sep ++ rest).length ≤ f →
      pySplitGo sep f (sep ++ rest) acc =
        acc.reverse :: pySplitGo sep rest.length rest [] := by
  intro f rest acc hf
  obtain ⟨c, cs, rfl⟩ : ∃ c cs, sep = c :: cs := by
    cases sep with
    | nil => exact absurd rfl hsep
    | cons c cs => exact ⟨c, cs, rfl⟩
  obtain ⟨g, rfl⟩ : ∃ g, f = g + 1 := by
    cases f with
    | zero => exfalso; simp only [List.length_append, List.length_cons] at hf; omega
    | succ g => exact ⟨g, rfl⟩
  rw [List.cons_append, pySplitGo_cons,
    if_pos (by rw [← List.cons_append]; exact isPre_append_self _ _)]
  rw [show (c :: (cs ++ rest)) = (c :: cs) ++ rest from rfl, List.drop_left]
  congr 1
  apply pySplitGo_fuel _ hsep
  · simp only [List.length_append, List.length_cons] at hf
    omega
  · exact le_rfl

/-- Every character of the word block is a space or a `w`. -/
theorem wordBlock_chars : ∀ c ∈ wordBlock, c ≠ 'C' := by
  intro c hc
  unfold wordBlock at hc
  rw [List.mem_flatten] at hc
  obtain ⟨l, hl, hcl⟩ := hc
  rw [List.eq_of_mem_replicate hl] at hcl
  simp only [List.mem_cons, List.mem_singleton, List.not_mem_nil, or_false] at hcl
  rcases hcl with rfl | rfl <;> decide

/-- Scanning word blocks separated by the split token produces one block per
occurrence. -/
theorem pySplitGo_rep (w : List Char) (hw : ∀ c ∈ w, c ≠ 'C') :
    ∀ (n f : Nat) (acc : List Char),
    (w ++ List.flatten (List.replicate n (chapterSep ++ w))).length ≤ f →
    pySplitGo chapterSep f
        (w ++ List.flatten (List.replicate n (chapterSep ++ w))) acc =
      (acc.reverse ++ w) :: List.replicate n w := by
  intro n
  induction n with
  | zero =>
    intro f acc hf
    calc pySplitGo chapterSep f
          (w ++ List.flatten (List.replicate 0 (chapterSep ++ w))) acc
        = pySplitGo chapterSep ([] : List Char).length [] (w.reverse ++ acc) :=
          pySplitGo_skip w f [] acc (by simpa using hf) hw
      _ = [(w.reverse ++ acc).reverse] := pySplitGo_nil _ _ _
      _ = (acc.reverse ++ w) :: List.replicate 0 w := by simp
  | succ n ih =>
    intro f acc hf
    have hassoc : List.flatten (List.replicate (n + 1) (chapterSep ++ w)) =
        chapterSep ++ (w ++ List.flatten (List.replicate n (chapterSep ++ w))) := by
      rw [List.replicate_succ, List.flatten_cons, List.append_assoc]
    have htext : w ++ List.flatten (List.replicate (n + 1) (chapterSep ++ w)) =
        w ++ (chapterSep ++ (w ++ List.flatten (List.replicate n (chapterSep ++ w)))) :=
      congrArg (w ++ ·) hassoc
    calc pySplitGo chapterSep f
          (w ++ List.flatten (List.replicate (n + 1) (chapterSep ++ w))) acc
        = pySplitGo chapterSep f
            (w ++ (chapterSep ++
              (w ++ List.flatten (List.replicate n (chapterSep ++ w))))) acc :=
          congrArg (fun t => pySplitGo chapterSep f t acc) htext
      _ = pySplitGo chapterSep
            (chapterSep ++ (w ++ List.flatten (List.replicate n (chapterSep ++ w)))).length
            (chapterSep ++ (w ++ List.flatten (List.replicate n (chapterSep ++ w))))
            (w.reverse ++ acc) :=
          pySplitGo_skip w f _ acc
            (by
              have hf2 := htext ▸ hf
              simp only [List.length_append] at hf2 ⊢
              omega) hw
      _ = (w.reverse ++ acc).reverse ::
            pySplitGo chapterSep
              (w ++ List.flatten (List.replicate n (chapterSep ++ w))).length
              (w ++ List.flatten (List.replicate n (chapterSep ++ w))) [] :=
          pySplitGo_match_head chapterSep (by decide) _ _ _ le_rfl
      _ = (w.reverse ++ acc).reverse ::
            (([] : List Char).reverse ++ w) :: List.replicate n w :=
          congrArg ((w.reverse ++ acc).reverse :: ·) (ih _ [] le_rfl)
      _ = (acc.reverse ++ w) :: List.replicate (n + 1) w := by
          rw [List.replicate_succ]
          simp

/-- The fragments of a text made of repeated blocks, each introduced by the
split token, are exactly those blocks. -/
theorem chaptersOf_rep (w : List Char) (hw : ∀ c ∈ w, c ≠ 'C')
    (hwst : pyStrip w ≠ []) :
    ∀ n : Nat,
      chaptersOf (List.flatten (List.replicate n (chapterSep ++ w))) =
        List.replicate n w := by
  intro n
  cases n with
  | zero => rfl
  | succ n =>
    have hcond : (!(pyStrip w).isEmpty) = true := bnot_isEmpty_of_ne_nil _ hwst
    have htext : List.flatten (List.replicate (n + 1) (chapterSep ++ w)) =
        chapterSep ++ (w ++ List.flatten (List.replicate n (chapterSep ++ w))) := by
      rw [List.replicate_succ, List.flatten_cons, List.append_assoc]
    have hsplit : pySplit chapterSep
        (List.flatten (List.replicate (n + 1) (chapterSep ++ w))) =
        [] :: w :: List.replicate n w :=
      calc pySplit chapterSep (List.flatten (List.replicate (n + 1) (chapterSep ++ w)))
          = pySplit chapterSep
              (chapterSep ++ (w ++ List.flatten (List.replicate n (chapterSep ++ w)))) :=
            congrArg (pySplit chapterSep) htext
        _ = ([] : List Char).reverse ::
              pySplitGo chapterSep
                (w ++ List.flatten (List.replicate n (chapterSep ++ w))).length
                (w ++ List.flatten (List.replicate n (chapterSep ++ w))) [] :=
            pySplitGo_match_head chapterSep (by decide) _ _ _ le_rfl
        _ = ([] : List Char).reverse ::
              (([] : List Char).reverse ++ w) :: List.replicate n w :=
            congrArg (([] : List Char).reverse :: ·) (pySplitGo_rep w hw n _ [] le_rfl)
        _ = [] :: w :: List.replicate n w := by simp
    have hrep : ∀ m : Nat,
        List.filter (fun c => !(pyStrip c).isEmpty) (List.replicate m w) =
          List.replicate m w := by
      intro m
      induction m with
      | zero => rfl
      | succ m ihm =>
        rw [List.replicate_succ, List.filter_cons, if_pos hcond, ihm,
          ← List.replicate_succ]
    calc chaptersOf (List.flatten (List.replicate (n + 1) (chapterSep ++ w)))
        = List.filter (fun c => !(pyStrip c).isEmpty)
            (pySplit chapterSep (List.flatten (List.replicate (n + 1) (chapterSep ++ w)))) :=
          rfl
      _ = List.filter (fun c => !(pyStrip c).isEmpty) ([] :: w :: List.replicate n w) :=
          congrArg (List.filter (fun c => !(pyStrip c).isEmpty)) hsplit
      _ = List.replicate (n + 1) w := by
          rw [List.filter_cons, if_neg (by decide), List.filter_cons, if_pos hcond,
            hrep n, ← List.replicate_succ]

/-- The word block is not whitespace only. -/
theorem pyStrip_wordBlock_ne_nil : pyStrip wordBlock ≠ [] := by
  have hwmem : 'w' ∈ wordBlock := by
    unfold wordBlock
    rw [List.mem_flatten]
    exact ⟨' ' :: ['w'], List.mem_replicate.mpr ⟨by decide, rfl⟩, by decide⟩
  rw [Ne, pyStrip_eq_nil_iff]
  intro hall
  have := hall 'w' hwmem
  exact absurd this (by decide)

/-- The fragments of the boundary input are exactly eight word blocks. -/
theorem c5_chapters : chaptersOf c5Text = List.replicate 8 wordBlock :=
  chaptersOf_rep wordBlock wordBlock_chars pyStrip_wordBlock_ne_nil 8

/-- Word scanning of space-and-`w` blocks: one word per block. -/
theorem pyWordsAux_sw : ∀ n : Nat,
    (pyWordsAux (List.flatten (List.replicate n (' ' :: ['w']))) [] =
      List.replicate n ['w']) ∧
    (∀ acc : List Char, acc ≠ [] →
      pyWordsAux (List.flatten (List.replicate n (' ' :: ['w']))) acc =
        acc.reverse :: List.replicate n ['w']) := by
  intro n
  induction n with
  | zero =>
    refine ⟨rfl, ?_⟩
    intro acc hacc
    obtain ⟨a, acc0, rfl⟩ : ∃ a acc0, acc = a :: acc0 := by
      cases acc with
      | nil => exact absurd rfl hacc
      | cons a acc0 => exact ⟨a, acc0, rfl⟩
    rfl
  | succ n ih =>
    have hE : List.flatten (List.replicate (n + 1) (' ' :: ['w'])) =
        ' ' :: 'w' :: List.flatten (List.replicate n (' ' :: ['w'])) := by
      rw [List.replicate_succ, List.flatten_cons]
      rfl
    constructor
    · rw [hE]
      show pyWordsAux (List.flatten (List.replicate n (' ' :: ['w']))) ['w'] = _
      rw [(ih).2 ['w'] (by simp)]
      simp [List.replicate_succ]
    · intro acc hacc
      obtain ⟨a, acc0, rfl⟩ : ∃ a acc0, acc = a :: acc0 := by
        cases acc with
        | nil => exact absurd rfl hacc
        | cons a acc0 => exact ⟨a, acc0, rfl⟩
      rw [hE]
      show (a :: acc0).reverse ::
          pyWordsAux (List.flatten (List.replicate n (' ' :: ['w']))) ['w'] = _
      rw [(ih).2 ['w'] (by simp)]
      simp [List.replicate_succ]

/-- The word block counts as exactly three hundred words. -/
theorem wcOf_wordBlock : wcOf wordBlock = 300 := by
  unfold wcOf pyWords wordBlock
  rw [(pyWordsAux_sw 300).1]
  simp

/-!
Shape of the validator result
-/

/-- The validator returns the input, the count diagnostic for the actual
fragment count, or some word diagnostic. -/
theorem validate_cases (output : List Char) (mc Mc mw Mw : Int) :
    validate_chapters output mc Mc mw Mw = output ∨
      validate_chapters output mc Mc mw Mw = countMsg (chaptersOf output).length mc Mc ∨
      ∃ i wc, validate_chapters output mc Mc mw Mw = wordMsg i wc mw Mw := by
  unfold validate_chapters
  by_cases h : (((chaptersOf output).length : Int) < mc ∨
      ((chaptersOf output).length : Int) > Mc)
  · rw [if_pos h]
    right; left; rfl
  · rw [if_neg h]
    rcases chapterLoop_shape mw Mw output (chaptersOf output) 1 with h1 | ⟨j, wc, h2⟩
    · left; exact h1
    · right; right; exact ⟨j, wc, h2⟩

/-!
The claims
-/

/-- Claim C1: when the fragment count is within the chapter bounds and every
fragment's word count is within the word bounds, `validate_chapters` returns
the input unchanged, and re-validating the returned text yields the same
result. -/
theorem validate_accepted_unchanged (output : List Char) (mc Mc mw Mw : Int)
    (hcount : mc ≤ ((chaptersOf output).length : Int) ∧
      ((chaptersOf output).length : Int) ≤ Mc)
    (hwords : ∀ frag ∈ chaptersOf output,
      mw ≤ (wcOf frag : Int) ∧ (wcOf frag : Int) ≤ Mw) :
    validate_chapters output mc Mc mw Mw = output ∧
      validate_chapters (validate_chapters output mc Mc mw Mw) mc Mc mw Mw =
        validate_chapters output mc Mc mw Mw := by
  have h1 : ¬(((chaptersOf output).length : Int) < mc ∨
      ((chaptersOf output).length : Int) > Mc) := by omega
  have h2 : validate_chapters output mc Mc mw Mw = output := by
    unfold validate_chapters
    rw [if_neg h1]
    exact chapterLoop_all_pass mw Mw output (chaptersOf output) 1
      (fun ch hch => by have := hwords ch hch; omega)
  exact ⟨h2, by rw [h2]; exact h2⟩

/-- Witness for C1: a one-chapter text accepted under bounds 1-2 chapters and
1-3 words. -/
theorem validate_accepted_unchanged_witness :
    validate_chapters c1Text 1 2 1 3 = c1Text ∧
      validate_chapters (validate_chapters c1Text 1 2 1 3) 1 2 1 3 =
        validate_chapters c1Text 1 2 1 3 :=
  validate_accepted_unchanged c1Text 1 2 1 3 (by decide) (by decide)

/-- Counterexample to C2 as stated: `"hello"` contains no occurrence of the
split token, yet the rejection cites 1 chapter, not 0. -/
theorem validate_zero_occurrence_counterexample :
    hasOccur chapterSep noChapterText = false ∧
      validate_chapters noChapterText = countMsg 1 8 10 ∧
      countMsg 1 8 10 ≠ countMsg 0 8 10 :=
  ⟨by decide, by decide, by decide⟩

/-- Claim C2 (amended): a whitespace-only input (which in particular contains
no occurrence of the split token) is rejected with a message citing 0
chapters under the default bounds. -/
theorem validate_ws_only_cites_zero (output : List Char)
    (hws : ∀ c ∈ output, pyIsSpace c = true) :
    hasOccur chapterSep output = false ∧ validate_chapters output = countMsg 0 8 10 := by
  have hno : hasOccur chapterSep output = false := by
    by_contra hh
    rw [Bool.not_eq_false] at hh
    exact absurd (hws _ (hasOccur_chapterSep_mem output hh)) (by decide)
  refine ⟨hno, ?_⟩
  have hch : chaptersOf output = [] := chaptersOf_ws_only output hws
  have hcond : ((chaptersOf output).length : Int) < 8 ∨
      ((chaptersOf output).length : Int) > 10 := by
    rw [hch]
    left
    norm_num
  unfold validate_chapters
  rw [if_pos hcond, hch]
  rfl

/-- Witness for C2 (amended): a three-character whitespace blob. -/
theorem validate_ws_only_cites_zero_witness :
    hasOccur chapterSep wsOnlyText = false ∧
      validate_chapters wsOnlyText = countMsg 0 8 10 :=
  validate_ws_only_cites_zero wsOnlyText (by decide)

/-- Counterexample to C3 as stated: the count rejection is not exactly the
bare template; it carries a leading cross marker. -/
theorem validate_literal_template_counterexample :
    validate_chapters noChapterText ≠
      ("Found 1 chapters. Please rewrite with 8-10 chapters.".data) ∧
    validate_chapters noChapterText =
      ("❌ Found 1 chapters. Please rewrite with 8-10 chapters.".data) :=
  ⟨by decide, by decide⟩

/-- Claim C3 (amended): on a count violation the validator returns exactly the
template string preceded by the prefix of `crew.py` line 16, and its output is
always the unmodified input or one of the two template messages. -/
theorem validate_prefixed_template (output : List Char) (mc Mc mw Mw : Int) :
    ((((chaptersOf output).length : Int) < mc ∨
        ((chaptersOf output).length : Int) > Mc) →
      validate_chapters output mc Mc mw Mw =
        "❌ ".data ++
          ("Found ".data ++ (toString (chaptersOf output).length).data ++
            " chapters. Please rewrite with ".data ++ (toString mc).data ++
            "-".data ++ (toString Mc).data ++ " chapters.".data)) ∧
    (validate_chapters output mc Mc mw Mw = output ∨
      validate_chapters output mc Mc mw Mw = countMsg (chaptersOf output).length mc Mc ∨
      ∃ i wc, validate_chapters output mc Mc mw Mw = wordMsg i wc mw Mw) := by
  constructor
  · intro h
    unfold validate_chapters
    rw [if_pos h]
    exact countMsg_prefix_form _ _ _
  · exact validate_cases output mc Mc mw Mw

/-- Witness for C3 (amended): the count rejection for `"hello"` under default
bounds is the prefixed template. -/
theorem validate_prefixed_template_witness :
    validate_chapters noChapterText 8 10 300 400 =
      "❌ ".data ++
        ("Found ".data ++ (toString (chaptersOf noChapterText).length).data ++
          " chapters. Please rewrite with ".data ++ (toString (8 : Int)).data ++
          "-".data ++ (toString (10 : Int)).data ++ " chapters.".data) :=
  (validate_prefixed_template noChapterText 8 10 300 400).1 (by decide)

/-- Claim C4: the chapter-count check runs first and short-circuits word
checking; otherwise the first fragment (in order) whose word count is out of
bounds is the one reported. -/
theorem validate_check_order (output : List Char) (mc Mc mw Mw : Int) :
    ((((chaptersOf output).length : Int) < mc ∨
        ((chaptersOf output).length : Int) > Mc) →
      validate_chapters output mc Mc mw Mw = countMsg (chaptersOf output).length mc Mc) ∧
    (¬(((chaptersOf output).length : Int) < mc ∨
        ((chaptersOf output).length : Int) > Mc) →
      ∀ (k : Nat) (hk : k < (chaptersOf output).length),
        (∀ (j : Nat) (hj : j < (chaptersOf output).length), j < k →
          ¬((wcOf ((chaptersOf output).get ⟨j, hj⟩) : Int) < mw ∨
            (wcOf ((chaptersOf output).get ⟨j, hj⟩) : Int) > Mw)) →
        ((wcOf ((chaptersOf output).get ⟨k, hk⟩) : Int) < mw ∨
          (wcOf ((chaptersOf output).get ⟨k, hk⟩) : Int) > Mw) →
        validate_chapters output mc Mc mw Mw =
          wordMsg (k + 1) (wcOf ((chaptersOf output).get ⟨k, hk⟩)) mw Mw) := by
  constructor
  · intro h
    unfold validate_chapters
    rw [if_pos h]
  · intro h k hk hprev hviol
    unfold validate_chapters
    rw [if_neg h,
      chapterLoop_first mw Mw output (chaptersOf output) k 1 hk hprev hviol,
      Nat.add_comm 1 k]

/-- Witness for C4: a short-circuited count violation, and a first-violator
report at the second fragment. -/
theorem validate_check_order_witness :
    validate_chapters c4TextB 2 3 1 2 = countMsg 1 2 3 ∧
      validate_chapters c4TextA 1 5 1 2 = wordMsg 2 4 1 2 := by
  constructor
  · exact (validate_check_order c4TextB 2 3 1 2).1 (by decide)
  · exact (validate_check_order c4TextA 1 5 1 2).2 (by decide) 1 (by decide)
      (by decide) (by decide)

/-- Claim C5: with the default bounds (8, 10, 300, 400), a text with exactly 8
or exactly 10 fragments, each of 300 to 400 words inclusive, is returned
unchanged; the no-argument call is the call at exactly those defaults. -/
theorem validate_default_bounds_accept (output : List Char)
    (hcount : (chaptersOf output).length = 8 ∨ (chaptersOf output).length = 10)
    (hwords : ∀ frag ∈ chaptersOf output, 300 ≤ wcOf frag ∧ wcOf frag ≤ 400) :
    validate_chapters output = output ∧
      validate_chapters output = validate_chapters output 8 10 300 400 := by
  constructor
  · have h1 : ¬(((chaptersOf output).length : Int) < 8 ∨
        ((chaptersOf output).length : Int) > 10) := by
      rcases hcount with h | h <;> rw [h] <;> decide
    unfold validate_chapters
    rw [if_neg h1]
    exact chapterLoop_all_pass 300 400 output (chaptersOf output) 1
      (fun ch hch => by have := hwords ch hch; omega)
  · rfl

/-- Witness for C5: eight chapters of exactly 300 words each are accepted. -/
theorem validate_default_bounds_accept_witness :
    validate_chapters c5Text = c5Text ∧
      validate_chapters c5Text = validate_chapters c5Text 8 10 300 400 :=
  validate_default_bounds_accept c5Text
    (Or.inl (by rw [c5_chapters]; rfl))
    (fun frag hfrag => by
      rw [c5_chapters] at hfrag
      rw [List.eq_of_mem_replicate hfrag, wcOf_wordBlock]
      omega)

/-- Claim C6: every fragment kept by the split has a non-whitespace
character (whitespace-only fragments are excluded from the candidate list and
the count), and a leading split token before any content contributes no
fragment. -/
theorem chaptersOf_excludes_whitespace (text : List Char) :
    (∀ frag ∈ chaptersOf text, frag.any (fun c => !pyIsSpace c) = true) ∧
    chaptersOf (chapterSep ++ text) = chaptersOf text := by
  constructor
  · intro frag hfrag
    exact mem_chaptersOf_not_ws text frag hfrag
  · have hpre : isPre chapterSep (chapterSep ++ text) = true := isPre_append_self _ _
    have hsplit := pySplit_cons_match chapterSep (chapterSep ++ text) (by decide) hpre
    unfold chaptersOf
    rw [hsplit, List.drop_left, List.filter_cons, if_neg (by decide)]

/-- Witness for C6: the single fragment of `c6Text` is kept, is not
whitespace-only, and a prepended split token changes nothing. -/
theorem chaptersOf_excludes_whitespace_witness :
    c6Frag ∈ chaptersOf c6Text ∧ c6Frag.any (fun c => !pyIsSpace c) = true ∧
      chaptersOf (chapterSep ++ c6Text) = chaptersOf c6Text :=
  ⟨by decide, (chaptersOf_excludes_whitespace c6Text).1 c6Frag (by decide),
    (chaptersOf_excludes_whitespace c6Text).2⟩

/-- Claim C7: the validator is total; on every input and every choice of the
four integer bounds it returns a string, which is the pass-through text or
one of the two diagnostics.  Totality itself is by construction: the
embedding is a total function on all of its domain. -/
theorem validate_total (output : List Char) (mc Mc mw Mw : Int) :
    ∃ r : List Char, validate_chapters output mc Mc mw Mw = r ∧
      (r = output ∨ r = countMsg (chaptersOf output).length mc Mc ∨
        ∃ i wc, r = wordMsg i wc mw Mw) :=
  ⟨validate_chapters output mc Mc mw Mw, rfl, validate_cases output mc Mc mw Mw⟩

/-- Claim C8: the validator is deterministic; two runs on equal inputs give
equal outputs.  It is a pure function of its five arguments by construction:
the embedding has no state, effects or input/output. -/
theorem validate_deterministic (out1 out2 : List Char)
    (mc1 Mc1 mw1 Mw1 mc2 Mc2 mw2 Mw2 : Int)
    (ho : out1 = out2) (h1 : mc1 = mc2) (h2 : Mc1 = Mc2)
    (h3 : mw1 = mw2) (h4 : Mw1 = Mw2) :
    validate_chapters out1 mc1 Mc1 mw1 Mw1 = validate_chapters out2 mc2 Mc2 mw2 Mw2 := by
  subst ho h1 h2 h3 h4
  rfl

/-- Witness for C8: two identical runs on `"hello"`. -/
theorem validate_deterministic_witness :
    validate_chapters noChapterText 8 10 300 400 =
      validate_chapters noChapterText 8 10 300 400 :=
  validate_deterministic noChapterText noChapterText 8 10 300 400 8 10 300 400
    rfl rfl rfl rfl rfl

/-- Claim C9: every rejection message starts with the cross-and-space prefix;
the acceptance path returns the input itself. -/
theorem validate_rejections_prefixed (output : List Char) (mc Mc mw Mw : Int) :
    validate_chapters output mc Mc mw Mw = output ∨
      isPre ("❌ ".data) (validate_chapters output mc Mc mw Mw) = true := by
  rcases validate_cases output mc Mc mw Mw with h | h | ⟨i, wc, h⟩
  · left; exact h
  · right; rw [h]; exact isPre_countMsg _ _ _
  · right; rw [h]; exact isPre_wordMsg _ _ _ _

/-- Claim C10: a text with no occurrence of the split token and at least one
non-whitespace character yields exactly one fragment, and the default-bounds
rejection cites 1 chapter. -/
theorem validate_no_occurrence_counts_one (text : List Char)
    (hno : hasOccur chapterSep text = false)
    (hnw : text.any (fun c => !pyIsSpace c) = true) :
    (chaptersOf text).length = 1 ∧ validate_chapters text = countMsg 1 8 10 := by
  have hch : chaptersOf text = [text] := chaptersOf_no_occur text hno hnw
  constructor
  · rw [hch]
    rfl
  · have hcond : ((chaptersOf text).length : Int) < 8 ∨
        ((chaptersOf text).length : Int) > 10 := by
      rw [hch]
      left
      norm_num
    unfold validate_chapters
    rw [if_pos hcond, hch]
    rfl

/-- Witness for C10: a sixteen-character prose blob with no split token. -/
theorem validate_no_occurrence_counts_one_witness :
    (chaptersOf c10Text).length = 1 ∧ validate_chapters c10Text = countMsg 1 8 10 :=
  validate_no_occurrence_counts_one c10Text (by decide) (by decide)
